import Mathlib

/-!
Verification of the dynamic-SOP core of this repository
(`metagpt/dynamic_sop.py`, `metagpt/utils/feedback_collector.py`)
against its natural-language specification.

The Python code is shallowly embedded: each relevant Python function is
translated into a Lean definition operating on explicit data.  Python
dicts that preserve insertion order are modelled as association lists
`List (String × _)`; exceptions are modelled with `Except`; the in-place
mutation performed by `DynamicSOP.agg_agents` on its argument's records
is modelled with an explicit heap `Nat → Assignment` addressed by
references.
-/

namespace DynamicSop

/-- A raw subtask assignment, one element of the JSON array parsed by
`DynamicSOP.parse_assign_agents2` and consumed by `DynamicSOP.agg_agents`.
Field names follow the JSON schema in `DynamicSOP.assign_agents`. -/
structure Assignment where
  subtask_number : Nat
  subtask_description : String
  agent : String
  skill : String
  actions : List String
  watch_items : List String
  trigger : String
deriving Repr, DecidableEq, Inhabited

/-- One iteration of the loop in `DynamicSOP.agg_agents`
(dynamic_sop.py lines 365-369): if `item['agent']` is already a key of
`final_agents`, append `". " + item['subtask_description']` to the stored
entry's description, otherwise insert `item` under its agent name at the
end (Python dicts preserve insertion order). -/
def aggStep (d : List (String × Assignment)) (item : Assignment) :
    List (String × Assignment) :=
  if (d.lookup item.agent).isSome then
    d.map (fun p =>
      if p.1 == item.agent then
        (p.1, { p.2 with subtask_description :=
                  p.2.subtask_description ++ ". " ++ item.subtask_description })
      else p)
  else
    d ++ [(item.agent, item)]

/-- `DynamicSOP.agg_agents` (dynamic_sop.py lines 363-370), value-level
view: folds the raw assignment list into an insertion-ordered dict keyed
by agent name.  (The in-place aliasing behaviour of the Python version is
modelled separately by `agg_agentsH` below.) -/
def agg_agents (agents : List Assignment) : List (String × Assignment) :=
  agents.foldl aggStep []

/-! ### Specification-side description of the aggregator

These definitions follow the spec's words for `PlanAggregator`
(one entry per distinct worker name in first-appearance order, description
= separator-joined concatenation of all of that worker's descriptions in
encounter order, all other fields taken from the first occurrence), to be
compared with `agg_agents` above. -/

/-- Distinct elements of a list in order of first appearance. -/
def dedupFirst (l : List String) : List String :=
  l.foldl (fun acc n => if n ∈ acc then acc else acc ++ [n]) []

/-- The descriptions contributed by worker `n`, in encounter order. -/
def descsFor (n : String) (x : List Assignment) : List String :=
  (x.filter (fun a => a.agent == n)).map (fun a => a.subtask_description)

/-- Join descriptions with the `". "` separator used by the code. -/
def joinDescs : List String → String
  | [] => ""
  | d :: ds => ds.foldl (fun acc s => acc ++ ". " ++ s) d

/-- First assignment of worker `n` in the raw sequence, if any. -/
def firstFor (n : String) : List Assignment → Option Assignment
  | [] => none
  | a :: rest => if a.agent == n then some a else firstFor n rest

/-- The merged record for worker `n`: the first-occurrence record with its
description replaced by the separator-joined concatenation of all of the
worker's descriptions. -/
def mergedFor (n : String) (x : List Assignment) : Assignment :=
  { (firstFor n x).getD default with
      subtask_description := joinDescs (descsFor n x) }

/-- The aggregated plan as the spec describes it: one entry per distinct
agent name in first-appearance order, carrying the merged record. -/
def aggSpec (x : List Assignment) : List (String × Assignment) :=
  (dedupFirst (x.map (fun a => a.agent))).map (fun n => (n, mergedFor n x))

/-! ### Helper lemmas about the spec-side pieces -/

theorem dedupFirst_go_mem (l : List String) (acc : List String) (m : String) :
    m ∈ l.foldl (fun acc n => if n ∈ acc then acc else acc ++ [n]) acc ↔
      m ∈ acc ∨ m ∈ l := by
  induction l generalizing acc with
  | nil => simp
  | cons n rest ih =>
    simp only [List.foldl_cons]
    by_cases h : n ∈ acc
    · simp only [if_pos h, ih, List.mem_cons]
      constructor
      · rintro (ha | hr)
        · exact Or.inl ha
        · exact Or.inr (Or.inr hr)
      · rintro (ha | rfl | hr)
        · exact Or.inl ha
        · exact Or.inl h
        · exact Or.inr hr
    · simp only [if_neg h, ih, List.mem_append, List.mem_singleton, List.mem_cons]
      tauto

theorem mem_dedupFirst (l : List String) (m : String) :
    m ∈ dedupFirst l ↔ m ∈ l := by
  have := dedupFirst_go_mem l [] m
  simpa [dedupFirst] using this

theorem dedupFirst_go_nodup (l : List String) (acc : List String)
    (h : acc.Nodup) :
    (l.foldl (fun acc n => if n ∈ acc then acc else acc ++ [n]) acc).Nodup := by
  induction l generalizing acc with
  | nil => simpa
  | cons n rest ih =>
    simp only [List.foldl_cons]
    by_cases hn : n ∈ acc
    · rw [if_pos hn]; exact ih acc h
    · rw [if_neg hn]
      refine ih _ ?_
      simp [List.nodup_append, h, hn]

theorem dedupFirst_nodup (l : List String) : (dedupFirst l).Nodup :=
  dedupFirst_go_nodup l [] List.nodup_nil

theorem dedupFirst_append_singleton (l : List String) (n : String) :
    dedupFirst (l ++ [n]) =
      if n ∈ l then dedupFirst l else dedupFirst l ++ [n] := by
  have h0 : dedupFirst (l ++ [n]) =
      if n ∈ dedupFirst l then dedupFirst l else dedupFirst l ++ [n] := by
    simp [dedupFirst, List.foldl_append]
  by_cases h : n ∈ l
  · rw [h0, if_pos ((mem_dedupFirst l n).mpr h), if_pos h]
  · rw [h0, if_neg (fun hc => h ((mem_dedupFirst l n).mp hc)), if_neg h]

theorem lookup_map_self (names : List String) (f : String → Assignment)
    (k : String) :
    (names.map (fun n => (n, f n))).lookup k =
      if k ∈ names then some (f k) else none := by
  induction names with
  | nil => simp
  | cons n rest ih =>
    simp only [List.map_cons, List.lookup_cons, List.mem_cons]
    by_cases h : k = n
    · subst h
      simp [List.lookup]
    · have hne : (k == n) = false := beq_false_of_ne h
      simp [hne, ih, h]

theorem firstFor_append (n : String) (x y : List Assignment) :
    firstFor n (x ++ y) = (firstFor n x).or (firstFor n y) := by
  induction x with
  | nil => simp [firstFor]
  | cons a rest ih =>
    simp only [List.cons_append, firstFor]
    by_cases h : a.agent == n
    · simp [h]
    · simp only [Bool.not_eq_true] at h
      simp [h, ih]

theorem firstFor_eq_none_iff (n : String) (x : List Assignment) :
    firstFor n x = none ↔ n ∉ x.map (fun a => a.agent) := by
  induction x with
  | nil => simp [firstFor]
  | cons a rest ih =>
    simp only [firstFor, List.map_cons, List.mem_cons]
    by_cases h : a.agent == n
    · have : a.agent = n := by simpa using h
      simp [h, this]
    · have hne : a.agent ≠ n := by simpa using h
      simp only [Bool.not_eq_true] at h
      simp [h, ih]
      intro _
      exact fun hc => hne hc.symm

theorem firstFor_isSome_iff (n : String) (x : List Assignment) :
    (firstFor n x).isSome ↔ n ∈ x.map (fun a => a.agent) := by
  cases hf : firstFor n x with
  | none =>
    have := (firstFor_eq_none_iff n x).mp hf
    simp [this]
  | some a =>
    have hne : ¬ (firstFor n x = none) := by simp [hf]
    have hm : n ∈ x.map (fun a => a.agent) := by
      by_contra hc
      exact hne ((firstFor_eq_none_iff n x).mpr hc)
    simp [hm]

theorem firstFor_agent (n : String) (x : List Assignment) (a : Assignment)
    (h : firstFor n x = some a) : a.agent = n := by
  induction x with
  | nil => simp [firstFor] at h
  | cons b rest ih =>
    simp only [firstFor] at h
    by_cases hb : b.agent == n
    · rw [if_pos hb] at h
      cases h
      simpa using hb
    · rw [if_neg hb] at h
      exact ih h

theorem descsFor_append_singleton (n : String) (x : List Assignment)
    (a : Assignment) :
    descsFor n (x ++ [a]) =
      descsFor n x ++
        (if a.agent == n then [a.subtask_description] else []) := by
  simp only [descsFor, List.filter_append, List.map_append]
  by_cases h : a.agent == n
  · simp [List.filter, h]
  · simp only [Bool.not_eq_true] at h
    simp [List.filter, h]

theorem descsFor_ne_nil (n : String) (x : List Assignment)
    (h : n ∈ x.map (fun a => a.agent)) : descsFor n x ≠ [] := by
  induction x with
  | nil => simp at h
  | cons a rest ih =>
    simp only [List.map_cons, List.mem_cons] at h
    simp only [descsFor, List.filter]
    rcases h with h | h
    · have : (a.agent == n) = true := by simpa using h.symm
      simp [this]
    · by_cases hb : a.agent == n
      · simp [hb]
      · simp only [Bool.not_eq_true] at hb
        simp only [hb]
        exact ih h

theorem joinDescs_append_singleton (ds : List String) (d : String)
    (h : ds ≠ []) :
    joinDescs (ds ++ [d]) = joinDescs ds ++ ". " ++ d := by
  cases ds with
  | nil => exact absurd rfl h
  | cons e es => simp [joinDescs, List.foldl_append]

theorem descsFor_eq_nil (n : String) (x : List Assignment)
    (h : n ∉ x.map (fun a => a.agent)) : descsFor n x = [] := by
  induction x with
  | nil => rfl
  | cons a rest ih =>
    simp only [List.map_cons, List.mem_cons] at h
    push_neg at h
    have hb : (a.agent == n) = false := beq_false_of_ne (fun hc => h.1 hc.symm)
    simpa [descsFor, List.filter, hb] using ih h.2

theorem mergedFor_append_ne (n : String) (x : List Assignment) (a : Assignment)
    (h : a.agent ≠ n) : mergedFor n (x ++ [a]) = mergedFor n x := by
  have hb : (a.agent == n) = false := beq_false_of_ne h
  unfold mergedFor
  rw [descsFor_append_singleton, firstFor_append]
  simp [hb, firstFor]

theorem mergedFor_append_seen (x : List Assignment) (a : Assignment)
    (h : a.agent ∈ x.map (fun b => b.agent)) :
    mergedFor a.agent (x ++ [a]) =
      { mergedFor a.agent x with subtask_description :=
          (mergedFor a.agent x).subtask_description ++ ". " ++
            a.subtask_description } := by
  unfold mergedFor
  rw [descsFor_append_singleton, firstFor_append]
  have hds := descsFor_ne_nil a.agent x h
  have hsome : (firstFor a.agent x).isSome := (firstFor_isSome_iff _ _).mpr h
  obtain ⟨b, hb⟩ := Option.isSome_iff_exists.mp hsome
  rw [hb]
  simp only [Option.or, beq_self_eq_true, if_pos, Option.getD_some]
  rw [joinDescs_append_singleton _ _ hds]

theorem mergedFor_append_new (x : List Assignment) (a : Assignment)
    (h : a.agent ∉ x.map (fun b => b.agent)) :
    mergedFor a.agent (x ++ [a]) = a := by
  unfold mergedFor
  rw [descsFor_append_singleton, firstFor_append,
    (firstFor_eq_none_iff _ _).mpr h, descsFor_eq_nil _ _ h]
  simp [firstFor, Option.or, joinDescs]

/-- Key step: aggregating one more raw assignment is one `aggStep` on the
spec-side description. -/
theorem aggSpec_snoc (x : List Assignment) (a : Assignment) :
    aggSpec (x ++ [a]) = aggStep (aggSpec x) a := by
  have hmap : (x ++ [a]).map (fun b => b.agent) =
      x.map (fun b => b.agent) ++ [a.agent] := by simp
  by_cases h : a.agent ∈ x.map (fun b => b.agent)
  · have hlk : (aggSpec x).lookup a.agent = some (mergedFor a.agent x) := by
      unfold aggSpec
      rw [lookup_map_self]
      simp [mem_dedupFirst, h]
    have hstep : aggStep (aggSpec x) a =
        (aggSpec x).map (fun p =>
          if p.1 == a.agent then
            (p.1, { p.2 with subtask_description :=
                      p.2.subtask_description ++ ". " ++
                        a.subtask_description })
          else p) := by
      unfold aggStep
      rw [hlk]
      rfl
    rw [hstep]
    unfold aggSpec
    rw [hmap, dedupFirst_append_singleton, if_pos h, List.map_map]
    refine List.map_congr_left ?_
    intro n hn
    by_cases hna : n = a.agent
    · subst hna
      simp only [Function.comp, beq_self_eq_true, if_pos]
      rw [mergedFor_append_seen x a h]
    · have hb : (n == a.agent) = false := beq_false_of_ne hna
      simp only [Function.comp, hb, if_neg, Bool.false_eq_true,
        not_false_iff]
      rw [mergedFor_append_ne n x a (fun hc => hna hc.symm)]
  · have hlk : (aggSpec x).lookup a.agent = none := by
      unfold aggSpec
      rw [lookup_map_self]
      simp [mem_dedupFirst, h]
    have hstep : aggStep (aggSpec x) a = aggSpec x ++ [(a.agent, a)] := by
      unfold aggStep
      rw [hlk]
      rfl
    rw [hstep]
    unfold aggSpec
    rw [hmap, dedupFirst_append_singleton, if_neg h, List.map_append]
    congr 1
    · refine List.map_congr_left ?_
      intro n hn
      have hnx : n ∈ x.map (fun b => b.agent) := (mem_dedupFirst _ _).mp hn
      have hna : a.agent ≠ n := fun hc => h (hc ▸ hnx)
      rw [mergedFor_append_ne n x a hna]
    · simp only [List.map_cons, List.map_nil]
      rw [mergedFor_append_new x a h]

/-- The aggregator `agg_agents` coincides with the spec-side description
`aggSpec` on every input. -/
theorem agg_agents_eq_aggSpec (x : List Assignment) :
    agg_agents x = aggSpec x := by
  induction x using List.reverseRecOn with
  | nil => rfl
  | append_singleton xs a ih =>
    have h1 : agg_agents (xs ++ [a]) = aggStep (agg_agents xs) a := by
      unfold agg_agents
      rw [List.foldl_append]
      rfl
    rw [h1, ih, ← aggSpec_snoc]

theorem mergedFor_agent (n : String) (x : List Assignment)
    (h : n ∈ x.map (fun a => a.agent)) : (mergedFor n x).agent = n := by
  have hsome : (firstFor n x).isSome := (firstFor_isSome_iff _ _).mpr h
  obtain ⟨b, hb⟩ := Option.isSome_iff_exists.mp hsome
  unfold mergedFor
  rw [hb]
  exact firstFor_agent n x b hb

theorem lookup_append_or {α β : Type} [BEq α] (l₁ l₂ : List (α × β)) (k : α) :
    (l₁ ++ l₂).lookup k = ((l₁.lookup k).or (l₂.lookup k)) := by
  induction l₁ with
  | nil => simp
  | cons p rest ih =>
    obtain ⟨k', v⟩ := p
    simp only [List.cons_append, List.lookup]
    by_cases h : (k == k')
    · simp [h]
    · simp only [Bool.not_eq_true] at h
      simp [h, ih]

/-- Folding `aggStep` over assignments with pairwise-distinct agent names,
none of which is already a key of the accumulator, appends them all as
fresh entries. -/
theorem foldl_aggStep_distinct (ys : List Assignment)
    (d : List (String × Assignment))
    (hd : ∀ a ∈ ys, d.lookup a.agent = none)
    (hnd : (ys.map (fun a => a.agent)).Nodup) :
    ys.foldl aggStep d = d ++ ys.map (fun a => (a.agent, a)) := by
  induction ys generalizing d with
  | nil => simp
  | cons a rest ih =>
    simp only [List.foldl_cons]
    have ha : d.lookup a.agent = none := hd a (List.mem_cons_self a rest)
    have hstep : aggStep d a = d ++ [(a.agent, a)] := by
      unfold aggStep
      rw [ha]
      rfl
    rw [hstep]
    simp only [List.map_cons, List.nodup_cons] at hnd
    have hd' : ∀ b ∈ rest, (d ++ [(a.agent, a)]).lookup b.agent = none := by
      intro b hb
      rw [lookup_append_or]
      have h1 : d.lookup b.agent = none := hd b (List.mem_cons_of_mem a hb)
      have h2 : b.agent ≠ a.agent := by
        intro hc
        exact hnd.1 (hc ▸ List.mem_map_of_mem (fun a => a.agent) hb)
      have hbne : (b.agent == a.agent) = false := beq_false_of_ne h2
      simp [h1, List.lookup, hbne]
    rw [ih (d ++ [(a.agent, a)]) hd' hnd.2]
    simp

/-- Claim C4: `DynamicSOP.agg_agents` is an order-preserving, lossless
merge: its result is exactly `aggSpec` — one entry per distinct agent name
in first-appearance order, whose description is the `". "`-joined
concatenation of that agent's descriptions in encounter order, and whose
remaining fields are the first-occurrence record's. -/
theorem claim_C4_agg_agents_lossless_ordered_merge (x : List Assignment) :
    agg_agents x = aggSpec x :=
  agg_agents_eq_aggSpec x

/-! ### Claim C3: idempotence

`DynamicSOP.agg_agents` takes a *list* of assignment dicts but returns a
*dict* keyed by agent name.  Applying the Python function to its own
output iterates over the dict, which yields its keys — strings — and the
body's first subscript `item['agent']` then raises
`TypeError: string indices must be integers` (unless the dict is empty).
`agg_agents_on_dict` models that call. -/
def agg_agents_on_dict (d : List (String × Assignment)) :
    Except String (List (String × Assignment)) :=
  match d with
  | [] => Except.ok []
  | _ :: _ => Except.error "TypeError: string indices must be integers"

/-- A one-element raw plan, nonempty so that re-aggregation hits the
TypeError. -/
def ex3 : List Assignment :=
  [{ subtask_number := 1, subtask_description := "write the PRD",
     agent := "ProductManager", skill := "product", actions := ["WritePRD"],
     watch_items := ["UserRequirement"], trigger := "UserRequirement" }]

/-- Claim C3 counterexample: `agg_agents (agg_agents x)` is not
`agg_agents x` — the inner call returns a nonempty dict and the outer call
raises a TypeError instead of returning anything. -/
theorem claim_C3_counterexample :
    agg_agents_on_dict (agg_agents ex3) =
        Except.error "TypeError: string indices must be integers" ∧
      agg_agents ex3 ≠ [] := by
  constructor
  · rfl
  · intro h
    simp [agg_agents, aggStep, ex3] at h

/-- Claim C3 amended: re-aggregating the *sequence of aggregated records*
(the values of the output dict, in order) yields the same aggregated dict:
`agg_agents ((agg_agents x).map (·.2)) = agg_agents x`. -/
theorem claim_C3_agg_agents_idempotent_on_values (x : List Assignment) :
    agg_agents ((agg_agents x).map (fun p => p.2)) = agg_agents x := by
  rw [agg_agents_eq_aggSpec x]
  have hvals : (aggSpec x).map (fun p => p.2) =
      (dedupFirst (x.map (fun a => a.agent))).map (fun n => mergedFor n x) := by
    unfold aggSpec
    rw [List.map_map]
    rfl
  rw [hvals]
  have hagents :
      ((dedupFirst (x.map (fun a => a.agent))).map
          (fun n => mergedFor n x)).map (fun a => a.agent) =
        dedupFirst (x.map (fun a => a.agent)) := by
    rw [List.map_map]
    have := List.map_id (dedupFirst (x.map (fun a => a.agent)))
    refine Eq.trans (List.map_congr_left ?_) this
    intro n hn
    exact mergedFor_agent n x ((mem_dedupFirst _ _).mp hn)
  have hnd :
      (((dedupFirst (x.map (fun a => a.agent))).map
          (fun n => mergedFor n x)).map (fun a => a.agent)).Nodup := by
    rw [hagents]
    exact dedupFirst_nodup _
  have hfold := foldl_aggStep_distinct
    ((dedupFirst (x.map (fun a => a.agent))).map (fun n => mergedFor n x))
    [] (fun a _ => rfl) hnd
  unfold agg_agents
  rw [hfold]
  simp only [List.nil_append, List.map_map]
  unfold aggSpec
  refine List.map_congr_left ?_
  intro n hn
  simp only [Function.comp]
  rw [mergedFor_agent n x ((mem_dedupFirst _ _).mp hn)]

/-! ### Claim C6: the aggregator and mutation

In Python, `final_agents[item['agent']] = item` stores a *reference* to
the input list's dict, and
`final_agents[k]['subtask_description'] += ...` therefore mutates that
input record in place.  `agg_agentsH` models `DynamicSOP.agg_agents` over
an explicit heap `Nat → Assignment` of records addressed by references;
the input sequence is a list of references into the heap, and the result
dict maps agent names to references. -/

/-- Point update of a heap of assignment records. -/
def heapUpdate (h : Nat → Assignment) (r : Nat) (a : Assignment) :
    Nat → Assignment :=
  fun i => if i = r then a else h i

/-- One iteration of `DynamicSOP.agg_agents` at the reference level: a
repeated agent name mutates, in place, the record registered at the first
occurrence's reference. -/
def aggStepH (st : (Nat → Assignment) × List (String × Nat)) (r : Nat) :
    (Nat → Assignment) × List (String × Nat) :=
  let h := st.1
  let d := st.2
  let item := h r
  match d.lookup item.agent with
  | some r0 =>
      (heapUpdate h r0
        { h r0 with subtask_description :=
            (h r0).subtask_description ++ ". " ++ item.subtask_description },
       d)
  | none => (h, d ++ [(item.agent, r)])

/-- `DynamicSOP.agg_agents` at the reference level: returns the final heap
(recording any in-place mutation of input records) together with the
produced dict of references. -/
def agg_agentsH (h : Nat → Assignment) (refs : List Nat) :
    (Nat → Assignment) × List (String × Nat) :=
  refs.foldl aggStepH (h, [])

/-- Heap for the C6 counterexample: two distinct records sharing agent
name "Engineer". -/
def ex6Heap : Nat → Assignment :=
  fun i =>
    if i = 0 then
      { subtask_number := 1, subtask_description := "d1", agent := "Engineer",
        skill := "code", actions := [], watch_items := [], trigger := "" }
    else
      { subtask_number := 2, subtask_description := "d2", agent := "Engineer",
        skill := "code", actions := [], watch_items := [], trigger := "" }

/-- Claim C6 counterexample: aggregating two records that share an agent
name mutates the first input record in place — its `subtask_description`
becomes the merged string, so the input is not left unchanged. -/
theorem claim_C6_counterexample :
    ((agg_agentsH ex6Heap [0, 1]).1 0).subtask_description = "d1. d2" ∧
      (ex6Heap 0).subtask_description = "d1" := by
  constructor
  · rfl
  · rfl

/-- Folding `aggStepH` over references whose records carry pairwise
distinct agent names, none already a key of the accumulator dict, never
takes the mutating branch: the heap is returned unchanged. -/
theorem foldl_aggStepH_distinct (refs : List Nat) (h : Nat → Assignment)
    (d : List (String × Nat))
    (hd : ∀ r ∈ refs, d.lookup (h r).agent = none)
    (hnd : (refs.map (fun r => (h r).agent)).Nodup) :
    (refs.foldl aggStepH (h, d)).1 = h := by
  induction refs generalizing d with
  | nil => rfl
  | cons r rest ih =>
    simp only [List.foldl_cons]
    have hr : d.lookup (h r).agent = none := hd r (List.mem_cons_self r rest)
    have hstep : aggStepH (h, d) r = (h, d ++ [((h r).agent, r)]) := by
      unfold aggStepH
      simp only [hr]
    rw [hstep]
    simp only [List.map_cons, List.nodup_cons] at hnd
    refine ih (d ++ [((h r).agent, r)]) ?_ hnd.2
    intro b hb
    rw [lookup_append_or]
    have h1 : d.lookup (h b).agent = none := hd b (List.mem_cons_of_mem r hb)
    have h2 : (h b).agent ≠ (h r).agent := by
      intro hc
      exact hnd.1 (hc ▸ List.mem_map_of_mem (fun r => (h r).agent) hb)
    have hbne : ((h b).agent == (h r).agent) = false := beq_false_of_ne h2
    simp [h1, List.lookup, hbne]

/-- Claim C6 amended: the merge is pure only when no agent name repeats
among the referenced input records; in that case every input record is
left unchanged.  (When a name repeats, the first-occurrence record's
`subtask_description` is mutated in place, as `claim_C6_counterexample`
shows.) -/
theorem claim_C6_agg_agents_pure_when_agents_distinct
    (h : Nat → Assignment) (refs : List Nat)
    (hnd : (refs.map (fun r => (h r).agent)).Nodup) :
    (agg_agentsH h refs).1 = h :=
  foldl_aggStepH_distinct refs h [] (fun _ _ => rfl) hnd

/-- Witness heap with two distinct agent names. -/
def ex6HeapW : Nat → Assignment :=
  fun i =>
    if i = 0 then
      { subtask_number := 1, subtask_description := "d1", agent := "Architect",
        skill := "design", actions := [], watch_items := [], trigger := "" }
    else
      { subtask_number := 2, subtask_description := "d2", agent := "Engineer",
        skill := "code", actions := [], watch_items := [], trigger := "" }

/-- Witness for the amended C6 theorem at a concrete two-record input with
distinct agent names. -/
theorem claim_C6_witness : (agg_agentsH ex6HeapW [0, 1]).1 = ex6HeapW :=
  claim_C6_agg_agents_pure_when_agents_distinct ex6HeapW [0, 1] (by decide)

/-! ### The capability scanner (`RoleInspector`)

Shallow embedding of the fragment of the Python `ast` module that
`RoleInspector` inspects.  A `Call` whose `func` is an `ast.Attribute` is
`attrCall` (only the attribute name is examined by the code); a `Call`
whose `func` is an `ast.Name` is `nameCall`. -/

/-- An `ast.Constant` value.  `truthy` mirrors Python truthiness, which is
what `RoleInspector.get_class_attributes` tests with `stmt.value.value`. -/
inductive PyConst where
  | str (s : String)
  | int (n : Int)
  | bool (b : Bool)
  | noneConst
deriving Repr, DecidableEq

/-- Python truthiness of a constant. -/
def PyConst.truthy : PyConst → Bool
  | .str s => !(s == "")
  | .int n => !(n == 0)
  | .bool b => b
  | .noneConst => false

/-- Python expressions, restricted to the shapes the scanner can react
to; every other expression behaves like `otherExpr`. -/
inductive PyExpr where
  | name (id : String)
  | const (v : PyConst)
  | attrCall (attr : String) (args : List PyExpr)
  | nameCall (fn : String) (args : List PyExpr)
  | listLit (elts : List PyExpr)
  | setLit (elts : List PyExpr)
  | otherExpr
deriving Repr

/-- Python statements, restricted to the shapes the scanner reacts to. -/
inductive PyStmt where
  | assign (targets : List PyExpr) (value : PyExpr)
  | annAssign (target : PyExpr) (value : Option PyExpr)
  | exprStmt (value : PyExpr)
  | ifStmt (body : List PyStmt) (orelse : List PyStmt)
  | funcDef (name : String) (body : List PyStmt)
  | otherStmt
deriving Repr

/-- An `ast.ClassDef` node. -/
structure PyClassDef where
  name : String
  bases : List PyExpr
  body : List PyStmt
deriving Repr

/-- `RoleInspector.is_role_class` (dynamic_sop.py lines 43-44): some base
is the bare name `Role`. -/
def is_role_class (c : PyClassDef) : Bool :=
  c.bases.any (fun b =>
    match b with
    | PyExpr.name id => id == "Role"
    | _ => false)

/-- Target handling inside the `ast.Assign` branch of
`RoleInspector.get_class_attributes`: each `ast.Name` target named `goal`
or `desc` whose assigned constant is truthy overwrites the corresponding
slot. -/
def gcaTargetStep (v : PyConst) (st : Option PyConst × Option PyConst)
    (t : PyExpr) : Option PyConst × Option PyConst :=
  match t with
  | PyExpr.name id =>
      ((if id == "goal" && v.truthy then some v else st.1),
       (if id == "desc" && v.truthy then some v else st.2))
  | _ => st

/-- One class-body statement of `RoleInspector.get_class_attributes`
(dynamic_sop.py lines 51-66): an `ast.AnnAssign` with a `Name` target and
a truthy constant value, or an `ast.Assign` with constant value, updates
the `goal`/`desc` slots; every later matching statement overwrites the
slot. -/
def gcaStep (st : Option PyConst × Option PyConst) (stmt : PyStmt) :
    Option PyConst × Option PyConst :=
  match stmt with
  | PyStmt.annAssign (PyExpr.name attr) (some (PyExpr.const v)) =>
      ((if attr == "goal" && v.truthy then some v else st.1),
       (if attr == "desc" && v.truthy then some v else st.2))
  | PyStmt.assign targets (PyExpr.const v) =>
      targets.foldl (gcaTargetStep v) st
  | _ => st

/-- `RoleInspector.get_class_attributes` (dynamic_sop.py lines 47-68):
scans the direct statements of the class body and returns
`goal or desc`. -/
def get_class_attributes (c : PyClassDef) : Option PyConst :=
  let gd := c.body.foldl gcaStep (none, none)
  gd.1.or gd.2

/-- The symbolic name of an expression, if it is an `ast.Name`. -/
def nameId : PyExpr → Option String
  | PyExpr.name id => some id
  | _ => none

/-- Extraction of action names from the arguments of a `set_actions` call
(dynamic_sop.py lines 90-97): a literal list/set contributes its `Name`
elements; a nested call whose `func` is a `Name` contributes that
name. -/
def setActionsExtract (args : List PyExpr) : List String :=
  match args with
  | [] => []
  | a :: _ =>
    match a with
    | PyExpr.listLit elts => elts.filterMap nameId
    | PyExpr.setLit elts => elts.filterMap nameId
    | PyExpr.nameCall fn _ => [fn]
    | _ => []

/-- Extraction of watch names from the arguments of a `_watch` call
(dynamic_sop.py lines 100-105): only a literal list/set contributes; a
nested call contributes nothing. -/
def watchExtract (args : List PyExpr) : List String :=
  match args with
  | [] => []
  | a :: _ =>
    match a with
    | PyExpr.listLit elts => elts.filterMap nameId
    | PyExpr.setLit elts => elts.filterMap nameId
    | _ => []

/-- Statement handling inside an `ast.If` body in
`RoleInspector.get_actions` (dynamic_sop.py lines 108-119): only
`set_actions` calls are recognised there; `_watch` calls and the else
branch are ignored. -/
def condStep (acc : List String × List String) (is : PyStmt) :
    List String × List String :=
  match is with
  | PyStmt.exprStmt (PyExpr.attrCall attr args) =>
      if attr == "set_actions" then (acc.1 ++ setActionsExtract args, acc.2)
      else acc
  | _ => acc

/-- One top-level statement of a method body in
`RoleInspector.get_actions` (dynamic_sop.py lines 84-119). -/
def stepStmt (acc : List String × List String) (fs : PyStmt) :
    List String × List String :=
  match fs with
  | PyStmt.exprStmt (PyExpr.attrCall attr args) =>
      let acc1 := if attr == "set_actions"
        then (acc.1 ++ setActionsExtract args, acc.2) else acc
      if attr == "_watch" then (acc1.1, acc1.2 ++ watchExtract args) else acc1
  | PyStmt.ifStmt body _ => body.foldl condStep acc
  | _ => acc

/-- `RoleInspector.get_actions` (dynamic_sop.py lines 71-121): collects
`(actions, watches)` from the method bodies of the class. -/
def get_actions (c : PyClassDef) : List String × List String :=
  c.body.foldl
    (fun acc stmt =>
      match stmt with
      | PyStmt.funcDef _ fbody => fbody.foldl stepStmt acc
      | _ => acc)
    ([], [])

/-- The per-class record built by `RoleInspector.process_file`
(dynamic_sop.py line 180). -/
structure RoleSummary where
  agent : String
  skill : Option PyConst
  action : List String
  watch : List String
  file_name : String
deriving Repr, DecidableEq

/-- A source file of the worker-definition directory.  `parse_result`
models the outcome of `ast.parse` followed by `ast.walk` collecting the
`ClassDef` nodes in walk order: `none` models a file on which `ast.parse`
raises `SyntaxError`. -/
structure SourceFile where
  name : String
  parse_result : Option (List PyClassDef)

/-- The record `RoleInspector.process_file` builds for one role class. -/
def roleSummaryOf (file_name : String) (c : PyClassDef) : RoleSummary :=
  { agent := c.name, skill := get_class_attributes c,
    action := (get_actions c).1, watch := (get_actions c).2,
    file_name := file_name }

/-- `RoleInspector.process_file` (dynamic_sop.py lines 168-184): parses
the file — a `SyntaxError` propagates, there is no handler — and returns
one record per class definition whose bases include `Role`. -/
def process_file (f : SourceFile) : Except String (List RoleSummary) :=
  match f.parse_result with
  | none => Except.error ("SyntaxError in " ++ f.name)
  | some classes =>
      Except.ok ((classes.filter is_role_class).map (roleSummaryOf f.name))

/-- The `.py` files of the scanned directory, in walk order: the
character-level model of the `file.endswith('.py')` test on
dynamic_sop.py line 190. -/
def pyFiles (files : List SourceFile) : List SourceFile :=
  files.filter (fun f => ".py".data.isSuffixOf f.name.data)

/-- `RoleInspector.get_all_role_summary` (dynamic_sop.py lines 186-193):
extends the record list file by file; an exception raised by
`process_file` propagates and aborts the whole scan. -/
def get_all_role_summary (files : List SourceFile) :
    Except String (List RoleSummary) :=
  (pyFiles files).foldlM
    (fun acc f => do
      let rs ← process_file f
      pure (acc ++ rs))
    []

/-- The records a file contributes when it parses. -/
def fileRecords (f : SourceFile) : List RoleSummary :=
  ((f.parse_result.getD []).filter is_role_class).map (roleSummaryOf f.name)

theorem foldlM_scan_ok (fs : List SourceFile) (acc : List RoleSummary)
    (h : ∀ f ∈ fs, f.parse_result.isSome) :
    (fs.foldlM
        (fun acc f => do
          let rs ← process_file f
          pure (acc ++ rs))
        acc : Except String (List RoleSummary)) =
      Except.ok (acc ++ fs.flatMap fileRecords) := by
  induction fs generalizing acc with
  | nil =>
    simp only [List.foldlM_nil, List.flatMap_nil, List.append_nil]
    rfl
  | cons f rest ih =>
    have hf := h f (List.mem_cons_self f rest)
    obtain ⟨cs, hcs⟩ := Option.isSome_iff_exists.mp hf
    have hpf : process_file f = Except.ok (fileRecords f) := by
      simp [process_file, fileRecords, hcs]
    simp only [List.foldlM_cons, hpf]
    have hbind :
        (Except.ok (fileRecords f) >>= fun rs =>
            (pure (acc ++ rs) : Except String (List RoleSummary))) =
          Except.ok (acc ++ fileRecords f) := rfl
    show (Except.ok (fileRecords f) >>= fun rs =>
        (pure (acc ++ rs) : Except String (List RoleSummary))) >>=
          (fun acc' => rest.foldlM _ acc') = _
    rw [hbind]
    show (rest.foldlM _ (acc ++ fileRecords f) :
        Except String (List RoleSummary)) = _
    rw [ih _ (fun g hg => h g (List.mem_cons_of_mem f hg))]
    simp [List.flatMap_cons, List.append_assoc]

theorem foldlM_scan_err (fs : List SourceFile) (acc : List RoleSummary)
    (h : ∃ f ∈ fs, f.parse_result = none) :
    ∃ e, (fs.foldlM
        (fun acc f => do
          let rs ← process_file f
          pure (acc ++ rs))
        acc : Except String (List RoleSummary)) = Except.error e := by
  induction fs generalizing acc with
  | nil =>
    obtain ⟨f, hf, _⟩ := h
    cases hf
  | cons f rest ih =>
    cases hp : f.parse_result with
    | none =>
      refine ⟨"SyntaxError in " ++ f.name, ?_⟩
      have hpf : process_file f =
          Except.error ("SyntaxError in " ++ f.name) := by
        simp [process_file, hp]
      simp only [List.foldlM_cons, hpf]
      rfl
    | some cs =>
      obtain ⟨g, hg, hgn⟩ := h
      rcases List.mem_cons.mp hg with rfl | hgr
      · rw [hp] at hgn
        cases hgn
      · have hpf : process_file f = Except.ok (fileRecords f) := by
          simp [process_file, fileRecords, hp]
        simp only [List.foldlM_cons, hpf]
        obtain ⟨e, he⟩ := ih (acc ++ fileRecords f) ⟨g, hgr, hgn⟩
        refine ⟨e, ?_⟩
        show (Except.ok (fileRecords f) >>= fun rs =>
            (pure (acc ++ rs) : Except String (List RoleSummary))) >>=
              (fun acc' => rest.foldlM _ acc') = _
        rw [show (Except.ok (fileRecords f) >>= fun rs =>
            (pure (acc ++ rs) : Except String (List RoleSummary))) =
              Except.ok (acc ++ fileRecords f) from rfl]
        exact he

/-- A well-formed worker-definition file: one `Role` subclass with a
`goal` attribute and a `set_actions` call. -/
def pmClass : PyClassDef :=
  { name := "ProductManager", bases := [PyExpr.name "Role"],
    body :=
      [PyStmt.assign [PyExpr.name "goal"]
          (PyExpr.const (PyConst.str "efficiently create a successful product")),
       PyStmt.funcDef "init"
         [PyStmt.exprStmt
            (PyExpr.attrCall "set_actions"
              [PyExpr.listLit [PyExpr.name "WritePRD"]])]] }

/-- A file that parses and contains one valid worker definition. -/
def goodFile : SourceFile :=
  { name := "product_manager.py", parse_result := some [pmClass] }

/-- A file on which `ast.parse` raises `SyntaxError`. -/
def badFile : SourceFile :=
  { name := "broken.py", parse_result := none }

/-- Claim C1 counterexample: a directory with one parseable worker
definition (N = 1) and one unparseable file (M = 1).  The claim says the
scan still returns the one capability record and reports one parse
failure; instead `get_all_role_summary` aborts with the propagated
`SyntaxError` and returns no record at all, even though `process_file`
on the parseable file alone yields its record. -/
theorem claim_C1_counterexample :
    get_all_role_summary [goodFile, badFile] =
        Except.error ("SyntaxError in " ++ badFile.name) ∧
      process_file goodFile =
        Except.ok [roleSummaryOf "product_manager.py" pmClass] := by
  constructor
  · rfl
  · rfl

/-- Claim C1 amended: the scan is all-or-nothing.  If every `.py` file
parses, `get_all_role_summary` returns the concatenation of all files'
records; if any `.py` file fails to parse, the whole scan aborts with the
propagated error — no records of other files are returned and no list of
per-file parse failures exists. -/
theorem claim_C1_scan_all_or_nothing (files : List SourceFile) :
    ((∀ f ∈ pyFiles files, f.parse_result.isSome) →
        get_all_role_summary files =
          Except.ok ((pyFiles files).flatMap fileRecords)) ∧
      ((∃ f ∈ pyFiles files, f.parse_result = none) →
        ∃ e, get_all_role_summary files = Except.error e) := by
  constructor
  · intro h
    have := foldlM_scan_ok (pyFiles files) [] h
    simpa [get_all_role_summary] using this
  · intro h
    exact foldlM_scan_err (pyFiles files) [] h

/-- Witness for the amended C1 theorem: a directory whose every file
parses is scanned completely. -/
theorem claim_C1_witness :
    get_all_role_summary [goodFile] =
      Except.ok ((pyFiles [goodFile]).flatMap fileRecords) :=
  (claim_C1_scan_all_or_nothing [goodFile]).1 (by decide)

/-! ### Claim C7: skill-summary extraction -/

/-- Whether an assignment target is the bare name `attr`. -/
def targetIs (attr : String) (t : PyExpr) : Bool :=
  match t with
  | PyExpr.name a => a == attr
  | _ => false

/-- Spec-side description: the truthy literal constants bound to the
attribute name `attr` by the direct statements of a class body — via
direct or type-annotated assignment — in statement order.  Statements in
nested scopes (method bodies, conditionals) contribute nothing. -/
def boundConsts (attr : String) (body : List PyStmt) : List PyConst :=
  body.flatMap (fun stmt =>
    match stmt with
    | PyStmt.annAssign (PyExpr.name a) (some (PyExpr.const v)) =>
        if a == attr && v.truthy then [v] else []
    | PyStmt.assign ts (PyExpr.const v) =>
        if ts.any (targetIs attr) && v.truthy then [v] else []
    | _ => [])

theorem getLast?_or_append {α : Type} (a b : List α) :
    (a ++ b).getLast? = b.getLast?.or a.getLast? := by
  cases hb : b with
  | nil => simp
  | cons x xs =>
    have hne : (x :: xs) ≠ ([] : List α) := by simp
    rw [List.getLast?_append_of_ne_nil _ hne]
    have : ((x :: xs).getLast?).isSome := by
      rw [List.getLast?_isSome]
      exact hne
    obtain ⟨v, hv⟩ := Option.isSome_iff_exists.mp this
    rw [hv]
    rfl

theorem gcaTarget_fold (v : PyConst) (ts : List PyExpr)
    (st : Option PyConst × Option PyConst) :
    ts.foldl (gcaTargetStep v) st =
      ((if ts.any (targetIs "goal") && v.truthy then some v else st.1),
       (if ts.any (targetIs "desc") && v.truthy then some v else st.2)) := by
  induction ts generalizing st with
  | nil => simp
  | cons t rest ih =>
    simp only [List.foldl_cons, List.any_cons, ih]
    cases hvt : v.truthy with
    | false => simp [gcaTargetStep, hvt]; cases t <;> simp [gcaTargetStep, hvt]
    | true =>
      cases t with
      | name a =>
        simp only [gcaTargetStep, targetIs, hvt, Bool.and_true]
        by_cases hg : (a == "goal") = true
        · by_cases hd : (a == "desc") = true
          · simp [hg, hd, ite_self]
          · simp only [Bool.not_eq_true] at hd
            simp [hg, hd, ite_self]
        · simp only [Bool.not_eq_true] at hg
          by_cases hd : (a == "desc") = true
          · simp [hg, hd, ite_self]
          · simp only [Bool.not_eq_true] at hd
            simp [hg, hd]
      | const c => simp [gcaTargetStep, targetIs]
      | attrCall a args => simp [gcaTargetStep, targetIs]
      | nameCall f args => simp [gcaTargetStep, targetIs]
      | listLit es => simp [gcaTargetStep, targetIs]
      | setLit es => simp [gcaTargetStep, targetIs]
      | otherExpr => simp [gcaTargetStep, targetIs]

theorem gcaStep_eq (st : Option PyConst × Option PyConst) (stmt : PyStmt) :
    gcaStep st stmt =
      ((boundConsts "goal" [stmt]).getLast?.or st.1,
       (boundConsts "desc" [stmt]).getLast?.or st.2) := by
  cases stmt with
  | annAssign t val =>
    cases t with
    | name a =>
      cases val with
      | none => simp [gcaStep, boundConsts, Option.or]
      | some ve =>
        cases ve with
        | const v =>
          simp only [gcaStep, boundConsts, List.flatMap_cons, List.flatMap_nil,
            List.append_nil]
          by_cases hg : (a == "goal" && v.truthy) = true
          · by_cases hd : (a == "desc" && v.truthy) = true
            · simp [hg, hd, Option.or]
            · simp [hg, hd, Option.or]
          · by_cases hd : (a == "desc" && v.truthy) = true
            · simp [hg, hd, Option.or]
            · simp [hg, hd, Option.or]
        | name b => simp [gcaStep, boundConsts, Option.or]
        | attrCall b args => simp [gcaStep, boundConsts, Option.or]
        | nameCall b args => simp [gcaStep, boundConsts, Option.or]
        | listLit es => simp [gcaStep, boundConsts, Option.or]
        | setLit es => simp [gcaStep, boundConsts, Option.or]
        | otherExpr => simp [gcaStep, boundConsts, Option.or]
    | const c => simp [gcaStep, boundConsts, Option.or]
    | attrCall a args => simp [gcaStep, boundConsts, Option.or]
    | nameCall f args => simp [gcaStep, boundConsts, Option.or]
    | listLit es => simp [gcaStep, boundConsts, Option.or]
    | setLit es => simp [gcaStep, boundConsts, Option.or]
    | otherExpr => simp [gcaStep, boundConsts, Option.or]
  | assign ts val =>
    cases val with
    | const v =>
      simp only [gcaStep, boundConsts, List.flatMap_cons, List.flatMap_nil,
        List.append_nil, gcaTarget_fold]
      by_cases hg : (ts.any (targetIs "goal") && v.truthy) = true
      · by_cases hd : (ts.any (targetIs "desc") && v.truthy) = true
        · simp only [Bool.and_eq_true] at hg hd
          simp [hg.1, hg.2, hd.1, Option.or]
        · rcases Bool.and_eq_true _ _ |>.mp hg with ⟨hg1, hg2⟩
          simp only [hg1, hg2, Bool.and_self, if_pos, Bool.true_and] at *
          simp [hg, hd, Option.or]
      · by_cases hd : (ts.any (targetIs "desc") && v.truthy) = true
        · simp [hg, hd, Option.or]
        · simp [hg, hd, Option.or]
    | name b => simp [gcaStep, boundConsts, Option.or]
    | attrCall b args => simp [gcaStep, boundConsts, Option.or]
    | nameCall b args => simp [gcaStep, boundConsts, Option.or]
    | listLit es => simp [gcaStep, boundConsts, Option.or]
    | setLit es => simp [gcaStep, boundConsts, Option.or]
    | otherExpr => simp [gcaStep, boundConsts, Option.or]
  | exprStmt e => simp [gcaStep, boundConsts, Option.or]
  | ifStmt b o => simp [gcaStep, boundConsts, Option.or]
  | funcDef n b => simp [gcaStep, boundConsts, Option.or]
  | otherStmt => simp [gcaStep, boundConsts, Option.or]

theorem gca_fold (body : List PyStmt) (st : Option PyConst × Option PyConst) :
    body.foldl gcaStep st =
      ((boundConsts "goal" body).getLast?.or st.1,
       (boundConsts "desc" body).getLast?.or st.2) := by
  induction body generalizing st with
  | nil => simp [boundConsts, Option.or]
  | cons s rest ih =>
    simp only [List.foldl_cons, gcaStep_eq, ih]
    have hsplit : ∀ attr, boundConsts attr (s :: rest) =
        boundConsts attr [s] ++ boundConsts attr rest := by
      intro attr
      simp [boundConsts]
    rw [hsplit "goal", hsplit "desc", getLast?_or_append, getLast?_or_append]
    cases hgr : (boundConsts "goal" rest).getLast? <;>
      cases hgs : (boundConsts "goal" [s]).getLast? <;>
      cases hdr : (boundConsts "desc" rest).getLast? <;>
      cases hds : (boundConsts "desc" [s]).getLast? <;>
      simp [Option.or]

/-- A role class that binds `desc` first and `goal` second: the first
literal-string bound to one of the two attribute names is "D". -/
def ex7Class : PyClassDef :=
  { name := "Searcher", bases := [PyExpr.name "Role"],
    body :=
      [PyStmt.assign [PyExpr.name "desc"] (PyExpr.const (PyConst.str "D")),
       PyStmt.assign [PyExpr.name "goal"] (PyExpr.const (PyConst.str "G"))] }

/-- Claim C7 counterexample: on a class whose body binds `desc := "D"`
then `goal := "G"`, the first literal-string value bound to one of the two
attribute names is "D", but `get_class_attributes` returns "G" — `goal`
takes priority over `desc` regardless of statement order. -/
theorem claim_C7_counterexample :
    get_class_attributes ex7Class = some (PyConst.str "G") ∧
      is_role_class ex7Class = true ∧
      some (PyConst.str "G") ≠ some (PyConst.str "D") := by
  refine ⟨rfl, rfl, ?_⟩
  decide

/-- Claim C7 amended: for every scanned class, `skillSummary` is
`goal or desc`: the LAST truthy literal constant bound (via direct or
type-annotated assignment) to `goal` among the direct statements of the
class body, if any, and otherwise the last truthy literal constant bound
to `desc`; assignments in nested scopes (method bodies, conditionals,
nested classes) are ignored, as `boundConsts` only inspects direct
class-body statements. -/
theorem claim_C7_skill_extraction (c : PyClassDef) :
    get_class_attributes c =
      ((boundConsts "goal" c.body).getLast?).or
        ((boundConsts "desc" c.body).getLast?) := by
  unfold get_class_attributes
  rw [gca_fold]
  cases hg : (boundConsts "goal" c.body).getLast? <;>
    cases hd : (boundConsts "desc" c.body).getLast? <;>
    simp [Option.or]

/-! ### Claim C8: conditional-branch scanning of configuration calls -/

/-- Spec-side: the attribute-method call occurrences scanned in one method
body, tagged with nesting depth — 0 for the top level of the body, 1 for
one level inside the then-branch of a conditional — in source order.
Deeper nesting, else-branches and non-call statements contribute
nothing. -/
def depthCalls (fbody : List PyStmt) : List (Nat × String × List PyExpr) :=
  fbody.flatMap (fun s =>
    match s with
    | PyStmt.exprStmt (PyExpr.attrCall attr args) => [(0, attr, args)]
    | PyStmt.ifStmt body _ =>
        body.flatMap (fun s2 =>
          match s2 with
          | PyStmt.exprStmt (PyExpr.attrCall attr args) => [(1, attr, args)]
          | _ => [])
    | _ => [])

/-- Spec-side: the scanned call occurrences of all method bodies of a
class, in source order. -/
def classDepthCalls (body : List PyStmt) : List (Nat × String × List PyExpr) :=
  body.flatMap (fun s =>
    match s with
    | PyStmt.funcDef _ fb => depthCalls fb
    | _ => [])

/-- Action contribution of one scanned occurrence: `set_actions` is
accepted at depth 0 and at depth 1. -/
def actOf (e : Nat × String × List PyExpr) : List String :=
  if e.2.1 == "set_actions" then setActionsExtract e.2.2 else []

/-- Watch contribution of one scanned occurrence: `_watch` is accepted
only at depth 0, and `watchExtract` only accepts a literal list/set
argument. -/
def watchOf (e : Nat × String × List PyExpr) : List String :=
  if e.1 == 0 && e.2.1 == "_watch" then watchExtract e.2.2 else []

/-- Spec-side declaredActions of a class. -/
def specActions (c : PyClassDef) : List String :=
  (classDepthCalls c.body).flatMap actOf

/-- Spec-side watchedSignals of a class. -/
def specWatches (c : PyClassDef) : List String :=
  (classDepthCalls c.body).flatMap watchOf

/-- The inner occurrences of the then-branch of a conditional. -/
def innerCalls (body : List PyStmt) : List (Nat × String × List PyExpr) :=
  body.flatMap (fun s2 =>
    match s2 with
    | PyStmt.exprStmt (PyExpr.attrCall attr args) => [(1, attr, args)]
    | _ => [])

theorem condStep_fold (body : List PyStmt) (acc : List String × List String) :
    body.foldl condStep acc =
      (acc.1 ++ (innerCalls body).flatMap actOf, acc.2) := by
  induction body generalizing acc with
  | nil => simp [innerCalls]
  | cons s rest ih =>
    have hsplit : innerCalls (s :: rest) = innerCalls [s] ++ innerCalls rest := by
      simp [innerCalls]
    simp only [List.foldl_cons, ih, hsplit, List.flatMap_append]
    cases s with
    | exprStmt e =>
      cases e with
      | attrCall attr args =>
        by_cases hs : (attr == "set_actions") = true
        · simp [condStep, innerCalls, actOf, hs, List.append_assoc]
        · simp only [Bool.not_eq_true] at hs
          simp [condStep, innerCalls, actOf, hs]
      | name a => simp [condStep, innerCalls]
      | const v => simp [condStep, innerCalls]
      | nameCall f args => simp [condStep, innerCalls]
      | listLit es => simp [condStep, innerCalls]
      | setLit es => simp [condStep, innerCalls]
      | otherExpr => simp [condStep, innerCalls]
    | assign ts v => simp [condStep, innerCalls]
    | annAssign t v => simp [condStep, innerCalls]
    | ifStmt b o => simp [condStep, innerCalls]
    | funcDef n b => simp [condStep, innerCalls]
    | otherStmt => simp [condStep, innerCalls]

theorem stepStmt_fold (fbody : List PyStmt) (acc : List String × List String) :
    fbody.foldl stepStmt acc =
      (acc.1 ++ (depthCalls fbody).flatMap actOf,
       acc.2 ++ (depthCalls fbody).flatMap watchOf) := by
  induction fbody generalizing acc with
  | nil => simp [depthCalls]
  | cons s rest ih =>
    have hsplit : depthCalls (s :: rest) = depthCalls [s] ++ depthCalls rest := by
      simp [depthCalls]
    simp only [List.foldl_cons, ih, hsplit, List.flatMap_append]
    cases s with
    | exprStmt e =>
      cases e with
      | attrCall attr args =>
        by_cases hs : (attr == "set_actions") = true
        · have hattr : attr = "set_actions" := by simpa using hs
          have hw : (attr == "_watch") = false := by
            rw [hattr]
            decide
          simp [stepStmt, depthCalls, actOf, watchOf, hs, hw,
            List.append_assoc]
        · simp only [Bool.not_eq_true] at hs
          by_cases hw : (attr == "_watch") = true
          · simp [stepStmt, depthCalls, actOf, watchOf, hs, hw,
              List.append_assoc]
          · simp only [Bool.not_eq_true] at hw
            simp [stepStmt, depthCalls, actOf, watchOf, hs, hw]
      | name a => simp [stepStmt, depthCalls]
      | const v => simp [stepStmt, depthCalls]
      | nameCall f args => simp [stepStmt, depthCalls]
      | listLit es => simp [stepStmt, depthCalls]
      | setLit es => simp [stepStmt, depthCalls]
      | otherExpr => simp [stepStmt, depthCalls]
    | ifStmt b o =>
      have hb : depthCalls [PyStmt.ifStmt b o] = innerCalls b := by
        simp [depthCalls, innerCalls]
      have hw : (innerCalls b).flatMap watchOf = [] := by
        unfold innerCalls
        rw [List.flatMap_assoc]
        refine List.flatMap_eq_nil_iff.mpr ?_
        intro s2 _
        cases s2 with
        | exprStmt e =>
          cases e with
          | attrCall attr args => simp [watchOf]
          | name a => simp
          | const v => simp
          | nameCall f args => simp
          | listLit es => simp
          | setLit es => simp
          | otherExpr => simp
        | assign ts v => simp
        | annAssign t v => simp
        | ifStmt b2 o2 => simp
        | funcDef n b2 => simp
        | otherStmt => simp
      simp only [stepStmt, hb, hw, condStep_fold, List.append_nil,
        List.nil_append, List.append_assoc]
    | assign ts v => simp [stepStmt, depthCalls]
    | annAssign t v => simp [stepStmt, depthCalls]
    | funcDef n b => simp [stepStmt, depthCalls]
    | otherStmt => simp [stepStmt, depthCalls]

/-- A role class whose only configuration call is a `_watch` with a
literal list, one level inside a conditional. -/
def ex8Class : PyClassDef :=
  { name := "Watcher", bases := [PyExpr.name "Role"],
    body :=
      [PyStmt.funcDef "init"
        [PyStmt.ifStmt
          [PyStmt.exprStmt
            (PyExpr.attrCall "_watch"
              [PyExpr.listLit [PyExpr.name "UserRequirement"]])]
          []]] }

/-- Claim C8 counterexample: the claim says a `_watch` occurrence nested
one level inside a conditional branch is inspected and would contribute
`UserRequirement` to watchedSignals; `get_actions` returns no watches at
all for such a class — the conditional branch of the scanner
(dynamic_sop.py lines 108-119) only recognises `set_actions`. -/
theorem claim_C8_counterexample :
    get_actions ex8Class = ([], []) ∧ is_role_class ex8Class = true ∧
      ([] : List String) ≠ ["UserRequirement"] := by
  refine ⟨rfl, rfl, ?_⟩
  decide

/-- Claim C8 amended: for every scanned class, `get_actions` is exactly
the depth-filtered scan `(specActions, specWatches)`: `set_actions`
occurrences (with a literal list/set of names or a single nested
constructor-call argument) are inspected at the top level of method
bodies and one level inside a conditional's then-branch; `_watch`
occurrences are inspected only at the top level of method bodies and only
with a literal list/set argument; anything nested more deeply, in an
else-branch, or of another shape is ignored. -/
theorem claim_C8_conditional_scanning (c : PyClassDef) :
    get_actions c = (specActions c, specWatches c) := by
  unfold get_actions specActions specWatches
  have hfold : ∀ (body : List PyStmt) (acc : List String × List String),
      body.foldl
          (fun acc stmt =>
            match stmt with
            | PyStmt.funcDef _ fbody => fbody.foldl stepStmt acc
            | _ => acc)
          acc =
        (acc.1 ++ (classDepthCalls body).flatMap actOf,
         acc.2 ++ (classDepthCalls body).flatMap watchOf) := by
    intro body
    induction body with
    | nil => intro acc; simp [classDepthCalls]
    | cons s rest ih =>
      intro acc
      have hsplit : classDepthCalls (s :: rest) =
          classDepthCalls [s] ++ classDepthCalls rest := by
        simp [classDepthCalls]
      simp only [List.foldl_cons, ih, hsplit, List.flatMap_append]
      cases s with
      | funcDef n fb =>
        simp [stepStmt_fold, classDepthCalls, List.append_assoc]
      | exprStmt e => simp [classDepthCalls]
      | assign ts v => simp [classDepthCalls]
      | annAssign t v => simp [classDepthCalls]
      | ifStmt b o => simp [classDepthCalls]
      | otherStmt => simp [classDepthCalls]
  rw [hfold c.body ([], [])]
  simp

/-! ### Team assembly (`DynamicSOP.get_all_agents`, `DynamicSOP.load_agents`) -/

/-- Python dict assignment `d[k] = v`: overwrite in place if the key
exists, else append. -/
def dictInsert (d : List (String × RoleSummary)) (k : String)
    (v : RoleSummary) : List (String × RoleSummary) :=
  if (d.lookup k).isSome then
    d.map (fun p => if p.1 == k then (k, v) else p)
  else
    d ++ [(k, v)]

/-- `DynamicSOP.get_all_agents` (dynamic_sop.py lines 235-247): the dict
from agent name to scanner record, built from the scanner's summary
list. -/
def get_all_agents (list_of_agents : List RoleSummary) :
    List (String × RoleSummary) :=
  list_of_agents.foldl (fun d item => dictInsert d item.agent item) []

/-- The observable constructor call made by `DynamicSOP.load_agents` for
one worker: the class name plus the explicitly passed keyword arguments
(`none` models an argument left to its default). -/
structure WorkerInstance where
  className : String
  n_borg : Option Nat
  use_code_review : Option Bool
deriving Repr, DecidableEq

/-- The loop of `DynamicSOP.load_agents` (dynamic_sop.py lines 382-394):
for each required agent in order, `all_agents[agent_class]` — a missing
key raises `KeyError`, which propagates and discards the whole list —
then the class is instantiated: `Engineer` with `n_borg=5` and the
resolved `use_code_review`, every other class with no arguments. -/
def load_agents_go (all_agents : List (String × RoleSummary)) (ucr : Bool) :
    List (String × Assignment) → Except String (List WorkerInstance)
  | [] => Except.ok []
  | (cls, _) :: rest =>
    match all_agents.lookup cls with
    | none => Except.error ("KeyError: " ++ cls)
    | some _ =>
      match load_agents_go all_agents ucr rest with
      | Except.ok tail =>
          Except.ok
            ((if cls == "Engineer" then
                { className := cls, n_borg := some 5,
                  use_code_review := some ucr }
              else
                { className := cls, n_borg := none,
                  use_code_review := none }) :: tail)
      | Except.error e => Except.error e

/-- `DynamicSOP.load_agents` (dynamic_sop.py lines 372-395):
`use_code_review` is true iff `"QaEngineer"` is a key of the aggregated
plan; then each required worker is resolved against the registry and
instantiated. -/
def load_agents (list_of_agents : List RoleSummary)
    (req_agents : List (String × Assignment)) :
    Except String (List WorkerInstance) :=
  load_agents_go (get_all_agents list_of_agents)
    (req_agents.any (fun p => p.1 == "QaEngineer")) req_agents

theorem load_agents_go_err (all_agents : List (String × RoleSummary))
    (ucr : Bool) (req : List (String × Assignment))
    (h : ∃ p ∈ req, all_agents.lookup p.1 = none) :
    ∃ e, load_agents_go all_agents ucr req = Except.error e := by
  induction req with
  | nil =>
    obtain ⟨p, hp, _⟩ := h
    cases hp
  | cons q rest ih =>
    obtain ⟨cls, a⟩ := q
    cases hl : all_agents.lookup cls with
    | none =>
      refine ⟨"KeyError: " ++ cls, ?_⟩
      simp [load_agents_go, hl]
    | some r =>
      obtain ⟨p, hp, hpn⟩ := h
      rcases List.mem_cons.mp hp with rfl | hpr
      · rw [hl] at hpn
        cases hpn
      · obtain ⟨e, he⟩ := ih ⟨p, hpr, hpn⟩
        refine ⟨e, ?_⟩
        simp [load_agents_go, hl, he]

/-- Claim C2: team assembly fails closed — if any required worker name is
absent from the registry of scanned workers, `load_agents` raises (no
list of instantiated workers is produced, for any prefix of the plan). -/
theorem claim_C2_load_agents_fails_closed
    (list_of_agents : List RoleSummary)
    (req_agents : List (String × Assignment))
    (h : ∃ p ∈ req_agents,
      (get_all_agents list_of_agents).lookup p.1 = none) :
    ∃ e, load_agents list_of_agents req_agents = Except.error e :=
  load_agents_go_err (get_all_agents list_of_agents)
    (req_agents.any (fun p => p.1 == "QaEngineer")) req_agents h

/-- An aggregated-plan entry naming a worker that was never scanned. -/
def ghostAssignment : Assignment :=
  { subtask_number := 1, subtask_description := "design the system",
    agent := "Architect", skill := "architecture", actions := [],
    watch_items := [], trigger := "" }

/-- Witness for C2: with an empty registry and a plan naming `Architect`,
assembly yields an error and no team. -/
theorem claim_C2_witness :
    ∃ e, load_agents [] [("Architect", ghostAssignment)] = Except.error e :=
  claim_C2_load_agents_fails_closed [] [("Architect", ghostAssignment)]
    ⟨("Architect", ghostAssignment), by simp, rfl⟩

theorem load_agents_go_ok_spec (all_agents : List (String × RoleSummary))
    (ucr : Bool) (req : List (String × Assignment))
    (team : List WorkerInstance)
    (h : load_agents_go all_agents ucr req = Except.ok team) :
    ∀ inst ∈ team,
      (inst.className = "Engineer" →
        inst.n_borg = some 5 ∧ inst.use_code_review = some ucr) ∧
      (inst.className ≠ "Engineer" →
        inst.n_borg = none ∧ inst.use_code_review = none) := by
  induction req generalizing team with
  | nil =>
    simp only [load_agents_go, Except.ok.injEq] at h
    subst h
    intro inst hmem
    cases hmem
  | cons q rest ih =>
    obtain ⟨cls, a⟩ := q
    cases hl : all_agents.lookup cls with
    | none => simp [load_agents_go, hl] at h
    | some r =>
      cases hrec : load_agents_go all_agents ucr rest with
      | error e => simp [load_agents_go, hl, hrec] at h
      | ok tail =>
        simp only [load_agents_go, hl, hrec, Except.ok.injEq] at h
        subst h
        intro inst hmem
        rcases List.mem_cons.mp hmem with rfl | htail
        · by_cases hcls : (cls == "Engineer") = true
          · have hceq : cls = "Engineer" := by simpa using hcls
            rw [if_pos hcls]
            refine ⟨fun _ => ⟨rfl, rfl⟩, fun hne => absurd hceq hne⟩
          · have hcne : cls ≠ "Engineer" := by simpa using hcls
            simp only [Bool.not_eq_true] at hcls
            rw [if_neg (by simp [hcls])]
            exact ⟨fun heq => absurd heq hcne, fun _ => ⟨rfl, rfl⟩⟩
        · exact ih tail hrec inst htail

/-- Claim C9: when team assembly succeeds, the `Engineer` instance is
always constructed with `n_borg = 5` and
`use_code_review = ("QaEngineer" is a key of the aggregated plan)`, and
every other worker is constructed with default parameters and no extra
arguments. -/
theorem claim_C9_engineer_configuration
    (list_of_agents : List RoleSummary)
    (req_agents : List (String × Assignment)) (team : List WorkerInstance)
    (h : load_agents list_of_agents req_agents = Except.ok team) :
    ∀ inst ∈ team,
      (inst.className = "Engineer" →
        inst.n_borg = some 5 ∧
          inst.use_code_review =
            some (req_agents.any (fun p => p.1 == "QaEngineer"))) ∧
      (inst.className ≠ "Engineer" →
        inst.n_borg = none ∧ inst.use_code_review = none) :=
  load_agents_go_ok_spec (get_all_agents list_of_agents)
    (req_agents.any (fun p => p.1 == "QaEngineer")) req_agents team h

/-- Scanner record for the designated implementer role. -/
def engSummary : RoleSummary :=
  { agent := "Engineer", skill := some (PyConst.str "write elegant code"),
    action := ["WriteCode"], watch := ["WriteTasks"],
    file_name := "engineer.py" }

/-- Scanner record for the designated reviewer role. -/
def qaSummary : RoleSummary :=
  { agent := "QaEngineer", skill := some (PyConst.str "test the code"),
    action := ["WriteTest"], watch := ["WriteCode"],
    file_name := "qa_engineer.py" }

/-- Aggregated-plan entry for the implementer. -/
def engAssignment : Assignment :=
  { subtask_number := 1, subtask_description := "implement the game",
    agent := "Engineer", skill := "coding", actions := ["WriteCode"],
    watch_items := ["WriteTasks"], trigger := "WriteTasks" }

/-- Aggregated-plan entry for the reviewer. -/
def qaAssignment : Assignment :=
  { subtask_number := 2, subtask_description := "test the game",
    agent := "QaEngineer", skill := "testing", actions := ["WriteTest"],
    watch_items := ["WriteCode"], trigger := "WriteCode" }

/-- The aggregated plan of the C9 witness run. -/
def wReq9 : List (String × Assignment) :=
  [("Engineer", engAssignment), ("QaEngineer", qaAssignment)]

/-- The `Engineer` instance produced in the C9 witness run. -/
def wEng : WorkerInstance :=
  { className := "Engineer", n_borg := some 5, use_code_review := some true }

/-- The `QaEngineer` instance produced in the C9 witness run. -/
def wQa : WorkerInstance :=
  { className := "QaEngineer", n_borg := none, use_code_review := none }

/-- Witness for C9: in a plan containing `Engineer` and `QaEngineer`,
assembly succeeds and the `Engineer` instance is constructed with
`n_borg = 5` and the review-mode flag resolved from the plan. -/
theorem claim_C9_witness :
    wEng.n_borg = some 5 ∧
      wEng.use_code_review =
        some (wReq9.any (fun p => p.1 == "QaEngineer")) :=
  (claim_C9_engineer_configuration [engSummary, qaSummary] wReq9
      [wEng, wQa] rfl wEng (List.mem_cons_self wEng [wQa])).1 rfl

/-! ### Claim C5: classifier passthrough and pipeline-boundary validation -/

/-- Character-level model of Python `str.strip()`: remove leading and
trailing whitespace. -/
def pyStrip (s : String) : String :=
  String.mk
    (((s.data.dropWhile Char.isWhitespace).reverse.dropWhile
        Char.isWhitespace).reverse)

/-- `DynamicSOP.SUPPORTED_DOMAINS` (dynamic_sop.py line 205). -/
def SUPPORTED_DOMAINS : List String := ["software engineering"]

/-- `DynamicSOP.classify_idea` (dynamic_sop.py lines 213-233) with the
feedback-collection flag off (its default:
`FeedbackRegistry.collect_feedback = False`, so `llm_feedback_loop`
returns immediately and `adjusted_prompt` stays `None`): the reasoning
service's response is returned with `str.strip()` applied and nothing
else — no normalisation, no check against `SUPPORTED_DOMAINS`. -/
def classify_idea (llm_response : String) : String := pyStrip llm_response

/-- Outcome of `DynamicSOP.generate_dynamic_sop`: the returned aggregated
plan, the `sys.exit(1)` taken on an unsupported domain, or a propagated
assembly error. -/
inductive SopOutcome where
  | team (dedup : List (String × Assignment))
  | exitUnsupported
  | loadError (e : String)
deriving Repr, DecidableEq

/-- Which pipeline stages ran: agent assignment, aggregation, team
assembly. -/
structure SopTrace where
  ranAssign : Bool
  ranAggregate : Bool
  ranAssemble : Bool
deriving Repr, DecidableEq

/-- `DynamicSOP.generate_dynamic_sop` (dynamic_sop.py lines 397-411).
The reasoning service's two responses are parameters: `domain_response`
(the classifier reply) and `raw_plan` (the parsed plan that
`assign_agents` would produce).  If the stripped domain is a member of
`SUPPORTED_DOMAINS` the assignment/aggregation/assembly stages run;
otherwise the method logs and calls `sys.exit(1)` — modelled as
`exitUnsupported` with no stage run. -/
def generate_dynamic_sop (list_of_agents : List RoleSummary)
    (domain_response : String) (raw_plan : List Assignment) :
    SopOutcome × SopTrace :=
  let domain := classify_idea domain_response
  if domain ∈ SUPPORTED_DOMAINS then
    let dedup := agg_agents raw_plan
    match load_agents list_of_agents dedup with
    | Except.ok _ => (SopOutcome.team dedup, ⟨true, true, true⟩)
    | Except.error e => (SopOutcome.loadError e, ⟨true, true, true⟩)
  else
    (SopOutcome.exitUnsupported, ⟨false, false, false⟩)

/-- Claim C5: the classifier returns the reasoning service's response
verbatim except for whitespace stripping, with no validation against the
domain enumeration; and whenever the returned string is not an exact
member of `SUPPORTED_DOMAINS`, the pipeline terminates with the
unsupported-domain signal and runs no assignment, aggregation or
assembly stage. -/
theorem claim_C5_classifier_passthrough_and_boundary
    (resp : String) (list_of_agents : List RoleSummary)
    (raw_plan : List Assignment) :
    classify_idea resp = pyStrip resp ∧
      (classify_idea resp ∉ SUPPORTED_DOMAINS →
        generate_dynamic_sop list_of_agents resp raw_plan =
          (SopOutcome.exitUnsupported, ⟨false, false, false⟩)) := by
  refine ⟨rfl, fun h => ?_⟩
  simp [generate_dynamic_sop, h]

/-- Witness for C5: the classifier reply " finance" is passed through
stripped (not a supported domain, not normalised to one), and the
pipeline aborts without running any later stage. -/
theorem claim_C5_witness :
    generate_dynamic_sop [] " finance" [] =
      (SopOutcome.exitUnsupported, ⟨false, false, false⟩) :=
  (claim_C5_classifier_passthrough_and_boundary " finance" [] []).2
    (by decide)

/-! ### Claim C10: the reviewer verdict in `collect_feedback` -/

/-- Character-level model of Python `str.lower()`. -/
def pyLower (s : String) : String := String.mk (s.data.map Char.toLower)

/-- The dict returned by `collect_feedback`. -/
structure FeedbackDict where
  is_correct : Bool
  feedback : Option String
deriving Repr, DecidableEq

/-- `collect_feedback` (feedback_collector.py lines 42-48): the verdict is
`input(...).lower() == 'yes'`; only when the verdict is not correct is a
second reply — the free-text correction — requested and stored.
`verdict_reply` and `correction_reply` are the reviewer channel's two
potential replies. -/
def collect_feedback (verdict_reply : String) (correction_reply : String) :
    FeedbackDict :=
  let is_correct := pyLower verdict_reply == "yes"
  { is_correct := is_correct,
    feedback := if is_correct then none else some correction_reply }

/-- Claim C10: the reviewer's verdict is recorded as correct iff the
lowercased reply is exactly "yes" — no whitespace trimming, no "y"
variant — and on any other reply the verdict is incorrect and the
reviewer's free-text correction is requested and stored. -/
theorem claim_C10_reviewer_verdict (r c : String) :
    ((collect_feedback r c).is_correct = true ↔ pyLower r = "yes") ∧
      (pyLower r ≠ "yes" →
        (collect_feedback r c).is_correct = false ∧
          (collect_feedback r c).feedback = some c) := by
  constructor
  · constructor
    · intro h
      have : (pyLower r == "yes") = true := h
      simpa using this
    · intro h
      simp [collect_feedback, h]
  · intro h
    have hb : (pyLower r == "yes") = false := beq_false_of_ne h
    simp [collect_feedback, hb]

/-- Witness for C10: " yes" (leading space) and "y" are rejected — no
trimming, no variants — while "YeS" is accepted after lowercasing. -/
theorem claim_C10_witness :
    ((collect_feedback " yes" "add error handling").is_correct = false ∧
        (collect_feedback " yes" "add error handling").feedback =
          some "add error handling") ∧
      ((collect_feedback "y" "add error handling").is_correct = false ∧
        (collect_feedback "y" "add error handling").feedback =
          some "add error handling") ∧
      (collect_feedback "YeS" "add error handling").is_correct = true :=
  ⟨(claim_C10_reviewer_verdict " yes" "add error handling").2 (by decide),
   (claim_C10_reviewer_verdict "y" "add error handling").2 (by decide),
   (claim_C10_reviewer_verdict "YeS" "add error handling").1.mpr
     (by decide)⟩

end DynamicSop
